import Mathlib

/-!
Shallow embedding of the bincode-ts codec, translated from src/index.ts and
src/utils.ts of the repository. Buffers are byte lists, machine integers are
Nat and Int with explicit wrapping, and every fallible operation returns an
Except value. JS value coercions that the source relies on (ToNumber,
ToBigInt, array join, property access on mistyped values) are modelled
explicitly for the value forms that can occur here.
-/

namespace BincodeTS

/-- Error kinds. The first seven are the BincodeError kinds of the source;
rangeError and typeError model the native JS exceptions that a DataView
access or a property read can raise. -/
inductive Err where
  | unimplemented
  | overflowLimit
  | invalidLength
  | invalidVariant
  | invalidOptionVariant
  | invalidType
  | bigintOutOfRange
  | rangeError
  | typeError
deriving DecidableEq, Repr

/-- Endianness knob of BincodeConfig. -/
inductive Endian where
  | little
  | big
deriving DecidableEq, Repr

/-- Integer encoding knob of BincodeConfig. -/
inductive IntMode where
  | variant
  | fixed
deriving DecidableEq, Repr

/-- BincodeConfig of the source: endianness, integer encoding mode and an
optional byte limit. -/
structure Config where
  endian : Endian
  intEncoding : IntMode
  limit : Option Nat
deriving DecidableEq, Repr

/-- The STANDARD configuration: little endian, variant int encoding, no
limit. -/
def Config.standard : Config := ⟨Endian.little, IntMode.variant, none⟩

/-- Type descriptors, mirroring the Type union of the source. Enum variants
carry their declared discriminant and an optional payload descriptor (null in
the source for unit variants). The custom kind holds caller-supplied encode
and decode closures and is outside this embedding; no claim refers to it. -/
inductive Ty where
  | never
  | u8
  | u16
  | u32
  | u64
  | u128
  | i8
  | i16
  | i32
  | i64
  | i128
  | f16
  | f32
  | f64
  | f128
  | bool
  | string
  | tuple (elems : List Ty)
  | array (element : Ty) (size : Nat)
  | struct (fields : List (String × Ty))
  | enum (variants : List (String × Nat × Option Ty))
  | option (inner : Ty)
  | collection (element : Ty)
deriving Repr

/-- Runtime values. A single integer constructor covers both JS number and JS
bigint, since every reachable value on the integer lanes is integral; strings
are identified with their UTF-8 byte sequences; floats are carried as raw bit
patterns (their numerics play no role in any claim); tuple covers every JS
array value (tuples, fixed arrays, collections); jsUndefined is the JS undefined. -/
inductive Val where
  | num (n : Int)
  | bool (b : Bool)
  | str (bytes : List Nat)
  | floatBits (width : Nat) (bits : Nat)
  | null
  | jsUndefined
  | tuple (vs : List Val)
  | struct (fields : List (String × Val))
  | enumVal (variant : String) (payload : Val)
deriving Repr

/-- Matches isInt of the source (kind starts with u or i). -/
def isIntTy : Ty → Bool
  | .u8 | .u16 | .u32 | .u64 | .u128 | .i8 | .i16 | .i32 | .i64 | .i128 => true
  | _ => false

/-- Matches isSigned of the source (kind starts with i). -/
def isSignedTy : Ty → Bool
  | .i8 | .i16 | .i32 | .i64 | .i128 => true
  | _ => false

/-- The two kinds excluded from variant int encoding by the dispatch in both
encode and decode. -/
def isRawByteTy : Ty → Bool
  | .u8 | .i8 => true
  | _ => false

/-- Boolean form of the littleEndian test done once per call in the source. -/
def isLittle (cfg : Config) : Bool :=
  match cfg.endian with
  | .little => true
  | .big => false

/-- Boolean form of the isVariantIntEncoding test of the source. -/
def isVariant (cfg : Config) : Bool :=
  match cfg.intEncoding with
  | .variant => true
  | .fixed => false

/-- The guard at the top of both encode and decode: a call whose starting
offset is at or past the configured limit fails with OverflowLimit. -/
def limitHit (cfg : Config) (offset : Nat) : Bool :=
  match cfg.limit with
  | some k => decide (k ≤ offset)
  | none => false

/-- ToUint32 of JS: two-complement wrap to an unsigned 32-bit value. -/
def toUint32 (n : Int) : Nat := (n.emod 4294967296).toNat

/-- ToInt32 of JS: wrap to a signed 32-bit value. -/
def toInt32 (n : Int) : Int :=
  let r := n.emod 4294967296
  if r < 2147483648 then r else r - 4294967296

/-- JS left shift by one on a 32-bit signed lane, as in the zigzag step of the
source: the operand is wrapped to 32 bits and the doubled result is
reinterpreted as signed 32-bit. -/
def jsShl1 (n : Int) : Int := toInt32 (toInt32 n * 2)

/-- JS arithmetic right shift by 31 of a 32-bit signed value. -/
def jsShr31 (n : Int) : Int := Int.fdiv (toInt32 n) 2147483648

/-- JS 32-bit bitwise xor: both operands wrapped to 32 bits, xor of the
unsigned representations, result reinterpreted as signed 32-bit. -/
def jsXor32 (a b : Int) : Int :=
  toInt32 (Int.ofNat (Nat.xor (toUint32 a) (toUint32 b)))

/-- JS 32-bit bitwise and. -/
def jsAnd32 (a b : Int) : Int :=
  toInt32 (Int.ofNat (Nat.land (toUint32 a) (toUint32 b)))

/-- Bitwise xor on arbitrary-precision integers (JS bigint xor), infinite
two-complement convention. -/
def intXor (a b : Int) : Int :=
  if 0 ≤ a then
    if 0 ≤ b then Int.ofNat (Nat.xor a.toNat b.toNat)
    else -(Int.ofNat (Nat.xor a.toNat (-(b + 1)).toNat)) - 1
  else
    if 0 ≤ b then -(Int.ofNat (Nat.xor (-(a + 1)).toNat b.toNat)) - 1
    else Int.ofNat (Nat.xor (-(a + 1)).toNat (-(b + 1)).toNat)

/-- Little-endian byte list of a natural number, fixed width. -/
def leBytes : Nat → Nat → List Nat
  | 0, _ => []
  | w + 1, v => v % 256 :: leBytes w (v / 256)

/-- Value of a little-endian byte list. -/
def bytesToNatLE : List Nat → Nat
  | [] => 0
  | b :: bs => b + 256 * bytesToNatLE bs

/-- Overwrite a run of bytes in the buffer starting at the given offset.
Callers bounds-check first, matching DataView and TypedArray semantics. -/
def writeRun : List Nat → Nat → List Nat → List Nat
  | buf, _, [] => buf
  | buf, off, b :: bs => writeRun (buf.set off b) (off + 1) bs

/-- DataView getUintN / getFloat read of width bytes: bounds-check against the
buffer, then assemble in the requested endianness. An out-of-bounds access
raises RangeError. -/
def dvGet (buf : List Nat) (offset width : Nat) (little : Bool) : Except Err Nat :=
  if offset + width ≤ buf.length then
    let bytes := (buf.drop offset).take width
    .ok (bytesToNatLE (if little then bytes else bytes.reverse))
  else .error .rangeError

/-- DataView setUintN / setIntN write of width bytes: bounds-check, then store
the value modulo 2 ^ (8 * width) in the requested endianness. -/
def dvSet (buf : List Nat) (offset width value : Nat) (little : Bool) :
    Except Err (List Nat) :=
  if offset + width ≤ buf.length then
    let bytes := leBytes width value
    .ok (writeRun buf offset (if little then bytes else bytes.reverse))
  else .error .rangeError

/-- Signed reinterpretation of an unsigned value of the given bit width, as
done by the getIntN accessors. -/
def asSigned (bits : Nat) (n : Nat) : Int :=
  if n < 2 ^ (bits - 1) then (n : Int) else (n : Int) - 2 ^ bits

/-- Translation of setU128 from src/utils.ts: explicit range check (failing
with BigintOutOfRange), then two 64-bit halves, low half first under little
endian and high half first under big endian. -/
def setU128 (buf : List Nat) (offset : Nat) (value : Int) (little : Bool) :
    Except Err (List Nat) :=
  if value < 0 ∨ 2 ^ 128 ≤ value then .error .bigintOutOfRange
  else
    let low := value.toNat % 2 ^ 64
    let high := value.toNat / 2 ^ 64
    if little then do
      let b1 ← dvSet buf offset 8 low true
      dvSet b1 (offset + 8) 8 high true
    else do
      let b1 ← dvSet buf offset 8 high false
      dvSet b1 (offset + 8) 8 low false

/-- Translation of getU128 from src/utils.ts. -/
def getU128 (buf : List Nat) (offset : Nat) (little : Bool) : Except Err Nat :=
  if little then do
    let low ← dvGet buf offset 8 true
    let high ← dvGet buf (offset + 8) 8 true
    .ok (high * 2 ^ 64 + low)
  else do
    let high ← dvGet buf offset 8 false
    let low ← dvGet buf (offset + 8) 8 false
    .ok (high * 2 ^ 64 + low)

/-- Translation of setI128 from src/utils.ts: range check, then the unsigned
representation is written through setU128. -/
def setI128 (buf : List Nat) (offset : Nat) (value : Int) (little : Bool) :
    Except Err (List Nat) :=
  if value < -(2 ^ 127) ∨ 2 ^ 127 - 1 < value then .error .bigintOutOfRange
  else setU128 buf offset (if value < 0 then 2 ^ 128 + value else value) little

/-- Translation of getI128 from src/utils.ts. -/
def getI128 (buf : List Nat) (offset : Nat) (little : Bool) : Except Err Int := do
  let u ← getU128 buf offset little
  if 2 ^ 127 - 1 < (u : Int) then .ok ((u : Int) - 2 ^ 128) else .ok (u : Int)

/-- Decimal ASCII bytes of an integer, the JS ToString of an integral
number or bigint. -/
def intStrBytes (n : Int) : List Nat :=
  if n < 0 then 45 :: (Nat.toDigits 10 (-n).toNat).map Char.toNat
  else (Nat.toDigits 10 n.toNat).map Char.toNat

/-- ASCII bytes of the fixed object tag produced by Object.prototype
stringification. -/
def objTagBytes : List Nat :=
  [91, 111, 98, 106, 101, 99, 116, 32, 79, 98, 106, 101, 99, 116, 93]

mutual

/-- JS ToString of a value, as ASCII bytes: numbers print in decimal, arrays
join their elements with commas, plain objects print the object tag. Strings
are already byte lists. The float branch is a placeholder; no claim
stringifies a float. -/
def jsStrBytes : Val → List Nat
  | .num n => intStrBytes n
  | .bool b => if b then [116, 114, 117, 101] else [102, 97, 108, 115, 101]
  | .str s => s
  | .floatBits _ bits => intStrBytes bits
  | .null => [110, 117, 108, 108]
  | .jsUndefined => [117, 110, 100, 101, 102, 105, 110, 101, 100]
  | .tuple vs => joinComma vs
  | .struct _ => objTagBytes
  | .enumVal _ _ => objTagBytes

/-- Array join with comma separators: null and undefined elements become
empty, other elements stringify. -/
def joinComma : List Val → List Nat
  | [] => []
  | v :: vs =>
    (match v with
     | .null => []
     | .jsUndefined => []
     | _ => jsStrBytes v) ++
    (match vs with
     | [] => []
     | _ => [44]) ++ joinComma vs

end

/-- Decimal value of a digit byte list. -/
def decDigitsVal (ds : List Nat) : Nat :=
  ds.foldl (fun acc d => acc * 10 + (d - 48)) 0

/-- JS string-to-number on the byte strings reachable here: the empty string
is 0, an optional minus sign followed by decimal digits parses exactly, and
anything else is NaN (none). The source never produces strings with leading
space, signs other than minus, or non-decimal notation on these paths. -/
def parseDec (s : List Nat) : Option Int :=
  match s with
  | [] => some 0
  | 45 :: ds =>
    if ds ≠ [] ∧ ds.all (fun d => 48 ≤ d && d ≤ 57) then
      some (-(decDigitsVal ds : Int))
    else none
  | ds =>
    if ds.all (fun d => 48 ≤ d && d ≤ 57) then some (decDigitsVal ds : Int)
    else none

/-- JS ToNumber of a value; none models NaN. Objects go through ToPrimitive
(array join or the object tag) and then string parsing. The float branch is a
placeholder; no claim converts a float. -/
def jsToNumber : Val → Option Int
  | .num n => some n
  | .bool b => some (if b then 1 else 0)
  | .null => some 0
  | .jsUndefined => none
  | .str s => parseDec s
  | .floatBits _ _ => none
  | .tuple vs => parseDec (joinComma vs)
  | .struct _ => none
  | .enumVal _ _ => none

/-- ToUintN after ToNumber, as performed by the setUintN and setIntN
accessors: NaN stores as 0, everything else wraps two-complement. The stored
bytes of setIntN and setUintN coincide, so one wrap serves both. -/
def numWrap (bits : Nat) (v : Val) : Nat :=
  match jsToNumber v with
  | none => 0
  | some n => (n.emod (2 ^ bits)).toNat

/-- JS ToBigInt: booleans convert, bigints pass through, strings parse (a
failing parse raising an error), and everything else raises TypeError.
Val.num plays both the JS number and the JS bigint role; on the 64- and
128-bit lanes every in-domain value is a bigint, so it converts here. -/
def jsToBigInt : Val → Except Err Int
  | .num n => .ok n
  | .bool b => .ok (if b then 1 else 0)
  | .str s =>
    match parseDec s with
    | some n => .ok n
    | none => .error .typeError
  | .tuple vs =>
    match parseDec (joinComma vs) with
    | some n => .ok n
    | none => .error .typeError
  | _ => .error .typeError

/-- JS string-keyed property read value[name] for the objects in play:
structs look the field up (first binding wins, field names being unique),
everything else yields undefined. -/
def jsField (v : Val) (name : String) : Val :=
  match v with
  | .struct fs => ((fs.find? (fun f => f.1 == name)).map (fun f => f.2)).getD .jsUndefined
  | _ => .jsUndefined

/-- JS indexed read value[i]: arrays index (out of range yields undefined),
strings yield one-character strings, everything else yields undefined. -/
def jsIndex (v : Val) (i : Nat) : Val :=
  match v with
  | .tuple vs => vs.getD i .jsUndefined
  | .str s => if i < s.length then .str [s.getD i 0] else .jsUndefined
  | _ => .jsUndefined

/-- Kind test used by the bigint zigzag branch of the source, which singles
out i64 and treats every other bigint-carrying signed kind as i128. -/
def isI64 : Ty → Bool
  | .i64 => true
  | _ => false

/-- Zigzag step of the variantIntEncoding closure (src/index.ts 596-623). The
source dispatches on the JS typeof of the value: the 16- and 32-bit signed
lanes carry numbers and use the 32-bit shift operators (with the i32 minimum
special-cased), the 64- and 128-bit lanes carry bigints and use exact
arithmetic (with their minima special-cased). Our single integer constructor
carries both roles, so the dispatch goes by the descriptor kind, which
coincides with typeof for every in-domain value. Booleans and parseable
strings follow the bigint conversion the source would apply; other values
raise TypeError when BigInt conversion is attempted. none stands for the
raw non-numeric value a JS NaN comparison chain would see. -/
def zigzagOf (v : Val) (t : Ty) : Except Err (Option Int) :=
  if isSignedTy t then
    match v with
    | .num n =>
      match t with
      | .i64 =>
        if n = -(2 ^ 63) then .ok (some (2 ^ 64 - 1))
        else .ok (some (intXor (n * 2) (Int.fdiv n (2 ^ 63))))
      | .i128 =>
        if n = -(2 ^ 127) then .ok (some (2 ^ 128 - 1))
        else .ok (some (intXor (n * 2) (Int.fdiv n (2 ^ 127))))
      | _ =>
        if n = -(2 ^ 31) then .ok (some (2 ^ 32 - 1))
        else .ok (some (jsXor32 (jsShl1 n) (jsShr31 n)))
    | .bool b =>
      let n : Int := if b then 1 else 0
      if isI64 t then .ok (some (intXor (n * 2) (Int.fdiv n (2 ^ 63))))
      else .ok (some (intXor (n * 2) (Int.fdiv n (2 ^ 127))))
    | .str s =>
      match parseDec s with
      | some n =>
        if isI64 t then .ok (some (intXor (n * 2) (Int.fdiv n (2 ^ 63))))
        else .ok (some (intXor (n * 2) (Int.fdiv n (2 ^ 127))))
      | none => .error .typeError
    | _ => .error .typeError
  else .ok (jsToNumber v)

/-- Translation of the variantIntEncoding closure of encode (src/index.ts
596-650): zigzag for signed kinds, then the flag-byte ladder with boundaries
250, 65535, 2 ^ 32 - 1 and 2 ^ 64 - 1. A NaN-like value fails every ladder
comparison, so the source writes the 254 flag and then dies converting the
value with BigInt; the error kind models that exception. -/
def variantIntEncoding (little : Bool) (buf : List Nat) (v : Val) (offset : Nat)
    (t : Ty) : Except Err (List Nat × Nat) := do
  let zigOpt ← zigzagOf v t
  match zigOpt with
  | some z =>
    if z < 0 then .error .invalidLength
    else if z ≤ 250 then do
      let b ← dvSet buf offset 1 z.toNat little
      .ok (b, offset + 1)
    else if z ≤ 65535 then do
      let b1 ← dvSet buf offset 1 251 little
      let b2 ← dvSet b1 (offset + 1) 2 z.toNat little
      .ok (b2, offset + 3)
    else if z ≤ 4294967295 then do
      let b1 ← dvSet buf offset 1 252 little
      let b2 ← dvSet b1 (offset + 1) 4 z.toNat little
      .ok (b2, offset + 5)
    else if z ≤ 18446744073709551615 then do
      let b1 ← dvSet buf offset 1 253 little
      let b2 ← dvSet b1 (offset + 1) 8 z.toNat little
      .ok (b2, offset + 9)
    else do
      let b1 ← dvSet buf offset 1 254 little
      let b2 ← setU128 b1 (offset + 1) z little
      .ok (b2, offset + 17)
  | none => do
    let _ ← dvSet buf offset 1 254 little
    .error .typeError

/-- Translation of the decodeVariantInt closure of decode (src/index.ts
320-357): flag byte, then a 0, 2, 4, 8 or 16 byte payload, an unknown flag
(255) failing with BigintOutOfRange; then the unzigzag step for signed kinds.
The payload is a JS bigint exactly when the flag was 253 or 254, and the
source picks the 32-bit or bigint unzigzag by typeof, so the choice goes by
the flag here. -/
def decodeVariantInt (little : Bool) (buf : List Nat) (offset : Nat) (t : Ty) :
    Except Err (Int × Nat) := do
  let flag ← dvGet buf offset 1 little
  let step : Except Err (Nat × Nat × Bool) :=
    if flag ≤ 250 then .ok (flag, offset + 1, false)
    else if flag = 251 then do
      let z ← dvGet buf (offset + 1) 2 little
      .ok (z, offset + 3, false)
    else if flag = 252 then do
      let z ← dvGet buf (offset + 1) 4 little
      .ok (z, offset + 5, false)
    else if flag = 253 then do
      let z ← dvGet buf (offset + 1) 8 little
      .ok (z, offset + 9, true)
    else if flag = 254 then do
      let z ← getU128 buf (offset + 1) little
      .ok (z, offset + 17, true)
    else .error .bigintOutOfRange
  let (z, o2, big) ← step
  if isSignedTy t then
    if big then .ok (intXor (Int.fdiv (z : Int) 2) (-((z % 2 : Nat) : Int)), o2)
    else .ok (jsXor32 ((toUint32 (z : Int) / 2 : Nat) : Int) (-(jsAnd32 (z : Int) 1)), o2)
  else .ok ((z : Int), o2)

/-- Length prefix read used by the String and collection decode cases: a
varint u64 under variant encoding, a raw 8-byte u64 otherwise. -/
def readLength (little variant : Bool) (buf : List Nat) (offset : Nat) :
    Except Err (Int × Nat) :=
  if variant then decodeVariantInt little buf offset Ty.u64
  else do
    let n ← dvGet buf offset 8 little
    .ok ((n : Int), offset + 8)

/-- Discriminant read used by the enum decode case: a varint u32 under
variant encoding, a raw 4-byte u32 otherwise. -/
def readDiscriminant (little variant : Bool) (buf : List Nat) (offset : Nat) :
    Except Err (Int × Nat) :=
  if variant then decodeVariantInt little buf offset Ty.u32
  else do
    let n ← dvGet buf offset 4 little
    .ok ((n : Int), offset + 4)

/-- Declared-discriminant lookup relation used to state the enum claims: the
source indexes variants by discriminant in declaration order, a later binding
overwriting an earlier one, and then reads the index once. -/
def lookupLast (vs : List (String × Nat × Option Ty)) (d : Nat) :
    Option (String × Option Ty) :=
  (vs.reverse.find? (fun e => e.2.1 == d)).map (fun e => (e.1, e.2.2))

mutual

/-- Translation of decode (src/index.ts 310-586): entry limit check, variant
int dispatch for multi-byte integer kinds, then the descriptor switch. Notes
kept from the source: the never case throws InvalidType; the f16 case throws
Unimplemented; the switch has no f128 case, so decoding f128 falls through
with the value still undefined and the offset unchanged; the bool case
compares the byte against 1 with no validation; the option case returns the
inner decode result directly on tag 1. -/
def decode (t : Ty) (buf : List Nat) (offset : Nat) (cfg : Config) :
    Except Err (Val × Nat) :=
  if limitHit cfg offset then .error .overflowLimit
  else
    let little := isLittle cfg
    if isVariant cfg && isIntTy t && !isRawByteTy t then
      (decodeVariantInt little buf offset t).map (fun r => (Val.num r.1, r.2))
    else
      match t with
      | .never => .error .invalidType
      | .u8 => (dvGet buf offset 1 little).map (fun n => (Val.num n, offset + 1))
      | .u16 => (dvGet buf offset 2 little).map (fun n => (Val.num n, offset + 2))
      | .u32 => (dvGet buf offset 4 little).map (fun n => (Val.num n, offset + 4))
      | .u64 => (dvGet buf offset 8 little).map (fun n => (Val.num n, offset + 8))
      | .u128 => (getU128 buf offset little).map (fun n => (Val.num n, offset + 16))
      | .i8 => (dvGet buf offset 1 little).map (fun n => (Val.num (asSigned 8 n), offset + 1))
      | .i16 => (dvGet buf offset 2 little).map (fun n => (Val.num (asSigned 16 n), offset + 2))
      | .i32 => (dvGet buf offset 4 little).map (fun n => (Val.num (asSigned 32 n), offset + 4))
      | .i64 => (dvGet buf offset 8 little).map (fun n => (Val.num (asSigned 64 n), offset + 8))
      | .i128 => (getI128 buf offset little).map (fun n => (Val.num n, offset + 16))
      | .f16 => .error .unimplemented
      | .f32 => (dvGet buf offset 4 little).map (fun n => (Val.floatBits 32 n, offset + 4))
      | .f64 => (dvGet buf offset 8 little).map (fun n => (Val.floatBits 64 n, offset + 8))
      | .f128 => .ok (Val.jsUndefined, offset)
      | .bool => (dvGet buf offset 1 little).map (fun n => (Val.bool (n == 1), offset + 1))
      | .string => do
        let (len, o1) ← readLength little (isVariant cfg) buf offset
        let n := len.toNat
        if o1 + n ≤ buf.length then .ok (Val.str ((buf.drop o1).take n), o1 + n)
        else .error .rangeError
      | .tuple ts => (decodeSeq ts buf offset cfg).map (fun r => (Val.tuple r.1, r.2))
      | .array e n => (decodeRepeat e n buf offset cfg).map (fun r => (Val.tuple r.1, r.2))
      | .struct fs => (decodeFields fs buf offset cfg).map (fun r => (Val.struct r.1, r.2))
      | .collection e => do
        let (len, o1) ← readLength little (isVariant cfg) buf offset
        let (vs, o2) ← decodeRepeat e len.toNat buf o1 cfg
        .ok (Val.tuple vs, o2)
      | .enum vs => do
        let (d, o1) ← readDiscriminant little (isVariant cfg) buf offset
        let r ← decodeEnumVs vs d.toNat buf o1 cfg
        match r with
        | none => .error .invalidVariant
        | some res => .ok res
      | .option inner => do
        let b ← dvGet buf offset 1 little
        if b = 0 then .ok (Val.null, offset + 1)
        else if b = 1 then decode inner buf (offset + 1) cfg
        else .error .invalidOptionVariant
termination_by (sizeOf t, 0)
decreasing_by
  · apply Prod.Lex.left
    simp_arith
  · apply Prod.Lex.left
    simp_arith
  · apply Prod.Lex.left
    simp_arith
  · apply Prod.Lex.left
    simp_arith
  · apply Prod.Lex.left
    simp_arith
  · apply Prod.Lex.left
    simp_arith

/-- Variant resolution of the enum decode case. The source indexes variants
by discriminant in declaration order, a later binding overwriting an earlier
one, then decodes the payload (if any) of the binding matching the wire
discriminant; this walk checks later variants first, which selects the same
binding. A none result means no declared variant carries the wire
discriminant. -/
def decodeEnumVs (vs : List (String × Nat × Option Ty)) (d : Nat)
    (buf : List Nat) (offset : Nat) (cfg : Config) :
    Except Err (Option (Val × Nat)) :=
  match vs with
  | [] => .ok none
  | (nm, dd, kind) :: rest => do
    let later ← decodeEnumVs rest d buf offset cfg
    match later with
    | some r => .ok (some r)
    | none =>
      if dd = d then
        match kind with
        | none => .ok (some (Val.enumVal nm Val.jsUndefined, offset))
        | some pt => (decode pt buf offset cfg).map (fun r => some (Val.enumVal nm r.1, r.2))
      else .ok none
termination_by (sizeOf vs, 0)
decreasing_by
  · apply Prod.Lex.left
    simp_arith
  · apply Prod.Lex.left
    simp_arith

/-- Child walk of the tuple decode case, in declaration order. -/
def decodeSeq (ts : List Ty) (buf : List Nat) (offset : Nat) (cfg : Config) :
    Except Err (List Val × Nat) :=
  match ts with
  | [] => .ok ([], offset)
  | t :: rest => do
    let (v, o1) ← decode t buf offset cfg
    let (vs, o2) ← decodeSeq rest buf o1 cfg
    .ok (v :: vs, o2)
termination_by (sizeOf ts, 0)
decreasing_by
  · apply Prod.Lex.left
    simp_arith
  · apply Prod.Lex.left
    simp_arith

/-- Field walk of the struct decode case, in declaration order. -/
def decodeFields (fs : List (String × Ty)) (buf : List Nat) (offset : Nat)
    (cfg : Config) : Except Err (List (String × Val) × Nat) :=
  match fs with
  | [] => .ok ([], offset)
  | (nm, t) :: rest => do
    let (v, o1) ← decode t buf offset cfg
    let (vs, o2) ← decodeFields rest buf o1 cfg
    .ok ((nm, v) :: vs, o2)
termination_by (sizeOf fs, 0)
decreasing_by
  · apply Prod.Lex.left
    simp_arith
  · apply Prod.Lex.left
    simp_arith

/-- Counted element loop of the array and collection decode cases. -/
def decodeRepeat (e : Ty) (n : Nat) (buf : List Nat) (offset : Nat)
    (cfg : Config) : Except Err (List Val × Nat) :=
  match n with
  | 0 => .ok ([], offset)
  | m + 1 => do
    let (v, o1) ← decode e buf offset cfg
    let (vs, o2) ← decodeRepeat e m buf o1 cfg
    .ok (v :: vs, o2)
termination_by (sizeOf e, n + 1)
decreasing_by
  · apply Prod.Lex.right
    omega
  · apply Prod.Lex.right
    omega

end

mutual

/-- Translation of encode (src/index.ts 588-821): entry limit check, variant
int dispatch for multi-byte integer kinds, then the descriptor switch. Notes
kept from the source: the switch has no never case, so encoding never falls
through and returns the offset unchanged; f16 and f128 throw Unimplemented;
an arity-1 tuple passes the whole tuple value, not its single element, to
the child encoder; the struct and tuple walks read fields or indices off the
given value with JS property semantics; the enum case reads the declared
discriminant off the descriptor by variant name. -/
def encode (t : Ty) (v : Val) (buf : List Nat) (offset : Nat) (cfg : Config) :
    Except Err (List Nat × Nat) :=
  if limitHit cfg offset then .error .overflowLimit
  else
    let little := isLittle cfg
    if isVariant cfg && isIntTy t && !isRawByteTy t then
      variantIntEncoding little buf v offset t
    else
      match t with
      | .never => .ok (buf, offset)
      | .u8 => (dvSet buf offset 1 (numWrap 8 v) little).map (fun b => (b, offset + 1))
      | .u16 => (dvSet buf offset 2 (numWrap 16 v) little).map (fun b => (b, offset + 2))
      | .u32 => (dvSet buf offset 4 (numWrap 32 v) little).map (fun b => (b, offset + 4))
      | .u64 => do
        let n ← jsToBigInt v
        (dvSet buf offset 8 (n.emod (2 ^ 64)).toNat little).map (fun b => (b, offset + 8))
      | .u128 => do
        let n ← jsToBigInt v
        (setU128 buf offset n little).map (fun b => (b, offset + 16))
      | .i8 => (dvSet buf offset 1 (numWrap 8 v) little).map (fun b => (b, offset + 1))
      | .i16 => (dvSet buf offset 2 (numWrap 16 v) little).map (fun b => (b, offset + 2))
      | .i32 => (dvSet buf offset 4 (numWrap 32 v) little).map (fun b => (b, offset + 4))
      | .i64 => do
        let n ← jsToBigInt v
        (dvSet buf offset 8 (n.emod (2 ^ 64)).toNat little).map (fun b => (b, offset + 8))
      | .i128 => do
        let n ← jsToBigInt v
        (setI128 buf offset n little).map (fun b => (b, offset + 16))
      | .f16 => .error .unimplemented
      | .f32 =>
        match v with
        | .floatBits _ bits => (dvSet buf offset 4 bits little).map (fun b => (b, offset + 4))
        | _ => .error .typeError
      | .f64 =>
        match v with
        | .floatBits _ bits => (dvSet buf offset 8 bits little).map (fun b => (b, offset + 8))
        | _ => .error .typeError
      | .f128 => .error .unimplemented
      | .bool => (dvSet buf offset 1 (numWrap 8 v) little).map (fun b => (b, offset + 1))
      | .string => do
        let bytes := jsStrBytes v
        let (b1, o1) ←
          if isVariant cfg then
            variantIntEncoding little buf (Val.num bytes.length) offset Ty.u64
          else
            (dvSet buf offset 8 bytes.length little).map (fun b => (b, offset + 8))
        if o1 + bytes.length ≤ b1.length then .ok (writeRun b1 o1 bytes, o1 + bytes.length)
        else .error .rangeError
      | .tuple ts =>
        match ts with
        | [t1] => encode t1 v buf offset cfg
        | [] => encodeSeq [] v 0 buf offset cfg
        | t1 :: t2 :: rest => encodeSeq (t1 :: t2 :: rest) v 0 buf offset cfg
      | .array e n => encodeIdx e v 0 n buf offset cfg
      | .struct fs => encodeFields fs v buf offset cfg
      | .enum variants =>
        match v with
        | .enumVal nm payload => encodeEnumVs variants nm payload buf offset cfg
        | _ => .error .typeError
      | .option inner =>
        match v with
        | .null => (dvSet buf offset 1 0 little).map (fun b => (b, offset + 1))
        | .jsUndefined => (dvSet buf offset 1 0 little).map (fun b => (b, offset + 1))
        | _ => do
          let b1 ← dvSet buf offset 1 1 little
          encode inner v b1 (offset + 1) cfg
      | .collection e =>
        match v with
        | .tuple vs => do
          let (b1, o1) ←
            if isVariant cfg then
              variantIntEncoding little buf (Val.num vs.length) offset Ty.u64
            else
              (dvSet buf offset 8 vs.length little).map (fun b => (b, offset + 8))
          encodeElems e vs b1 o1 cfg
        | _ => .error .typeError
termination_by (sizeOf t, 0)
decreasing_by
  · apply Prod.Lex.left
    simp_arith
  · apply Prod.Lex.left
    simp_arith
  · apply Prod.Lex.left
    simp_arith
  · apply Prod.Lex.left
    simp_arith
  · apply Prod.Lex.left
    simp_arith
  · apply Prod.Lex.left
    simp_arith
  · apply Prod.Lex.left
    simp_arith
  · apply Prod.Lex.left
    simp_arith

/-- Variant resolution of the enum encode case: the declared discriminant and
payload descriptor are read off the descriptor by variant name (object keys
are unique, so the first binding is the binding), the discriminant is written
as a u32 under the active integer encoding, then the payload (if the variant
has one) is encoded. A missing name means the source read a property off
undefined, a TypeError. -/
def encodeEnumVs (vs : List (String × Nat × Option Ty)) (nm : String)
    (payload : Val) (buf : List Nat) (offset : Nat) (cfg : Config) :
    Except Err (List Nat × Nat) :=
  match vs with
  | [] => .error .typeError
  | (vn, disc, kind) :: rest =>
    if vn == nm then do
      let (b1, o1) ←
        if isVariant cfg then
          variantIntEncoding (isLittle cfg) buf (Val.num disc) offset Ty.u32
        else
          (dvSet buf offset 4 disc (isLittle cfg)).map (fun b => (b, offset + 4))
      match kind with
      | none => .ok (b1, o1)
      | some kt => encode kt payload b1 o1 cfg
    else encodeEnumVs rest nm payload buf offset cfg
termination_by (sizeOf vs, 0)
decreasing_by
  · apply Prod.Lex.left
    simp_arith
  · apply Prod.Lex.left
    simp_arith

/-- Indexed child walk of the tuple encode case (arity not 1): element i of
the value is encoded against child i of the descriptor. -/
def encodeSeq (ts : List Ty) (v : Val) (i : Nat) (buf : List Nat)
    (offset : Nat) (cfg : Config) : Except Err (List Nat × Nat) :=
  match ts with
  | [] => .ok (buf, offset)
  | t :: rest => do
    let (b1, o1) ← encode t (jsIndex v i) buf offset cfg
    encodeSeq rest v (i + 1) b1 o1 cfg
termination_by (sizeOf ts, 0)
decreasing_by
  · apply Prod.Lex.left
    simp_arith
  · apply Prod.Lex.left
    simp_arith

/-- Field walk of the struct encode case, in declaration order. -/
def encodeFields (fs : List (String × Ty)) (v : Val) (buf : List Nat)
    (offset : Nat) (cfg : Config) : Except Err (List Nat × Nat) :=
  match fs with
  | [] => .ok (buf, offset)
  | (nm, t) :: rest => do
    let (b1, o1) ← encode t (jsField v nm) buf offset cfg
    encodeFields rest v b1 o1 cfg
termination_by (sizeOf fs, 0)
decreasing_by
  · apply Prod.Lex.left
    simp_arith
  · apply Prod.Lex.left
    simp_arith

/-- Indexed loop of the fixed-array encode case: exactly size elements are
read off the value and encoded. -/
def encodeIdx (e : Ty) (v : Val) (i remaining : Nat) (buf : List Nat)
    (offset : Nat) (cfg : Config) : Except Err (List Nat × Nat) :=
  match remaining with
  | 0 => .ok (buf, offset)
  | r + 1 => do
    let (b1, o1) ← encode e (jsIndex v i) buf offset cfg
    encodeIdx e v (i + 1) r b1 o1 cfg
termination_by (sizeOf e, remaining + 1)
decreasing_by
  · apply Prod.Lex.right
    omega
  · apply Prod.Lex.right
    omega

/-- Element loop of the collection encode case. -/
def encodeElems (e : Ty) (vs : List Val) (buf : List Nat) (offset : Nat)
    (cfg : Config) : Except Err (List Nat × Nat) :=
  match vs with
  | [] => .ok (buf, offset)
  | w :: rest => do
    let (b1, o1) ← encode e w buf offset cfg
    encodeElems e rest b1 o1 cfg
termination_by (sizeOf e, vs.length + 1)
decreasing_by
  · apply Prod.Lex.right
    simp_arith
  · apply Prod.Lex.right
    simp_arith

end

instance {e a : Type} [DecidableEq e] [DecidableEq a] : DecidableEq (Except e a) := fun x y =>
  match x, y with
  | .ok u, .ok w => if h : u = w then isTrue (by rw [h]) else isFalse (by simp [h])
  | .error u, .error w => if h : u = w then isTrue (by rw [h]) else isFalse (by simp [h])
  | .ok _, .error _ => isFalse (by simp)
  | .error _, .ok _ => isFalse (by simp)

/-! Helper lemmas shared by the claim theorems. -/

theorem take_one_drop (buf : List Nat) (off : Nat) (h : off < buf.length) :
    (buf.drop off).take 1 = [buf.getD off 0] := by
  induction buf generalizing off with
  | nil => simp at h
  | cons b t ih =>
    cases off with
    | zero => simp
    | succ o =>
      simp only [List.drop_succ_cons, List.getD_cons_succ]
      exact ih o (by simpa using h)

theorem dvGet_one (buf : List Nat) (off : Nat) (little : Bool)
    (h : off < buf.length) :
    dvGet buf off 1 little = .ok (buf.getD off 0) := by
  unfold dvGet
  rw [if_pos (by omega)]
  rw [take_one_drop buf off h]
  cases little <;> simp [bytesToNatLE]

theorem dvSet_one (buf : List Nat) (off v : Nat) (little : Bool)
    (h : off < buf.length) :
    dvSet buf off 1 v little = .ok (buf.set off (v % 256)) := by
  unfold dvSet
  rw [if_pos (by omega)]
  cases little <;> simp [leBytes, writeRun]

theorem leBytes_length (w v : Nat) : (leBytes w v).length = w := by
  induction w generalizing v with
  | zero => simp [leBytes]
  | succ n ih => simp [leBytes, ih]

theorem writeRun_eq (bytes : List Nat) (buf : List Nat) (off : Nat)
    (h : off + bytes.length ≤ buf.length) :
    writeRun buf off bytes = buf.take off ++ bytes ++ buf.drop (off + bytes.length) := by
  induction bytes generalizing buf off with
  | nil => simp [writeRun]
  | cons b bs ih =>
    have hoff : off < buf.length := by simp at h; omega
    have hset : buf.set off b = buf.take off ++ b :: buf.drop (off + 1) := by
      rw [List.set_eq_take_append_cons_drop]
      rw [if_pos hoff]
    rw [writeRun, ih (buf.set off b) (off + 1) (by simp at h ⊢; omega), hset]
    have hlen : (buf.take off).length = off := by simp; omega
    have h1 : (buf.take off ++ b :: buf.drop (off + 1)).take (off + 1)
        = buf.take off ++ [b] := by
      rw [List.take_append_eq_append_take, hlen, List.take_of_length_le (by rw [hlen]; omega)]
      have e1 : off + 1 - off = 1 := by omega
      rw [e1]
      simp
    have h2 : (buf.take off ++ b :: buf.drop (off + 1)).drop (off + 1 + bs.length)
        = buf.drop (off + 1 + bs.length) := by
      rw [List.drop_append_eq_append_drop, hlen,
        List.drop_eq_nil_of_le (by rw [hlen]; omega)]
      have e1 : off + 1 + bs.length - off = bs.length + 1 := by omega
      rw [e1]
      simp only [List.nil_append, List.drop_succ_cons, List.drop_drop]
    rw [h1, h2]
    have e2 : off + 1 + bs.length = off + (bs.length + 1) := by omega
    rw [e2]
    simp

theorem dvSet_eq (buf : List Nat) (off w v : Nat)
    (h : off + w ≤ buf.length) :
    dvSet buf off w v true
      = .ok (buf.take off ++ leBytes w v ++ buf.drop (off + w)) := by
  have hw := writeRun_eq (leBytes w v) buf off (by rw [leBytes_length]; omega)
  unfold dvSet
  rw [if_pos h]
  simp [hw, leBytes_length]

theorem leBytes_add (m n v : Nat) :
    leBytes (m + n) v = leBytes m v ++ leBytes n (v / 2 ^ (8 * m)) := by
  induction m generalizing v with
  | zero => simp [leBytes]
  | succ k ih =>
    have e : k + 1 + n = (k + n) + 1 := by omega
    rw [e, leBytes, leBytes, ih (v / 256)]
    simp only [List.cons_append, List.append_cancel_left_eq]
    congr 2
    rw [Nat.div_div_eq_div_mul]
    congr 1
    rw [show 8 * (k + 1) = 8 + 8 * k by ring, pow_add]
    norm_num

theorem leBytes_mod (m v : Nat) : leBytes m (v % 2 ^ (8 * m)) = leBytes m v := by
  induction m generalizing v with
  | zero => simp [leBytes]
  | succ k ih =>
    rw [leBytes, leBytes]
    have hpow : 2 ^ (8 * (k + 1)) = 256 * 2 ^ (8 * k) := by
      rw [show 8 * (k + 1) = 8 + 8 * k by ring, pow_add]
      norm_num
    congr 1
    · rw [hpow, Nat.mod_mod_of_dvd v (Dvd.intro (2 ^ (8 * k)) rfl)]
    · rw [hpow, Nat.mod_mul_right_div_self, ih]

/-! Claim theorems. -/

set_option maxHeartbeats 1000000 in
/-- C1: the round-trip law fails on the code for tuples of arity 1. The
source encode passes the whole tuple value (a one-element array) to the
single child encoder instead of the element. For the in-domain descriptor
Tuple(Struct(a: u8, b: u8)) with value [(a: 1, b: 2)] under the standard
configuration, the struct field reads on the array value yield undefined,
which the byte setters store as 0; encode therefore emits [0, 0], and
decoding those bytes returns [(a: 0, b: 0)], not the original value, even
though both encode and decode succeed and agree on the offset. -/
theorem claim1_arity1_tuple_roundtrip_fails :
    encode (Ty.tuple [Ty.struct [("a", Ty.u8), ("b", Ty.u8)]])
        (Val.tuple [Val.struct [("a", Val.num 1), ("b", Val.num 2)]])
        [9, 9] 0 Config.standard
      = .ok ([0, 0], 2) ∧
    decode (Ty.tuple [Ty.struct [("a", Ty.u8), ("b", Ty.u8)]]) [0, 0] 0 Config.standard
      = .ok (Val.tuple [Val.struct [("a", Val.num 0), ("b", Val.num 0)]], 2) ∧
    Val.tuple [Val.struct [("a", Val.num 0), ("b", Val.num 0)]]
      ≠ Val.tuple [Val.struct [("a", Val.num 1), ("b", Val.num 2)]] := by
  have h1 : encode (Ty.tuple [Ty.struct [("a", Ty.u8), ("b", Ty.u8)]])
      (Val.tuple [Val.struct [("a", Val.num 1), ("b", Val.num 2)]])
      [9, 9] 0 Config.standard = .ok ([0, 0], 2) := by
    simp [encode, encodeFields, limitHit, isVariant, isLittle, isIntTy, isRawByteTy,
      Config.standard, dvSet, writeRun, leBytes, numWrap, jsToNumber, jsField, Except.map,
      Except.bind, bind]
  have h2 : decode (Ty.tuple [Ty.struct [("a", Ty.u8), ("b", Ty.u8)]]) [0, 0] 0 Config.standard
      = .ok (Val.tuple [Val.struct [("a", Val.num 0), ("b", Val.num 0)]], 2) := by
    simp [decode, decodeSeq, decodeFields, limitHit, isVariant, isLittle, isIntTy,
      isRawByteTy, Config.standard, dvGet, bytesToNatLE, Except.map, Except.bind, bind,
      pure, Except.pure]
  exact ⟨h1, h2, by simp⟩

set_option maxHeartbeats 1000000 in
/-- C2, counterexample: the claim says u32 65536 encodes as the six bytes
[252, 0, 0, 1, 0, 0]; the code writes the flag and a 4-byte little-endian
payload, five bytes [252, 0, 0, 1, 0], returning offset 5, and leaves the
sixth buffer byte untouched. -/
theorem claim2_counterexample :
    encode Ty.u32 (Val.num 65536) [9, 9, 9, 9, 9, 9] 0 Config.standard
      = .ok ([252, 0, 0, 1, 0, 9], 5) ∧
    encode Ty.u32 (Val.num 65536) [9, 9, 9, 9, 9, 9] 0 Config.standard
      ≠ .ok ([252, 0, 0, 1, 0, 0], 6) := by
  have h : encode Ty.u32 (Val.num 65536) [9, 9, 9, 9, 9, 9] 0 Config.standard
      = .ok ([252, 0, 0, 1, 0, 9], 5) := by
    simp [encode, limitHit, isVariant, isLittle, isIntTy, isRawByteTy, Config.standard,
      variantIntEncoding, zigzagOf, isSignedTy, jsToNumber, dvSet, writeRun, leBytes,
      Except.map, Except.bind, bind, pure, Except.pure]
  exact ⟨h, by rw [h]; simp⟩

set_option maxHeartbeats 2000000 in
set_option maxRecDepth 8000 in
/-- C2 (amended): in variant int-encoding mode, varint encoding of an
unsigned integer u emits exactly [u] when u ≤ 250; flag 251 and a 2-byte
little-endian payload when 250 < u ≤ 65535; flag 252 and a 4-byte payload
when 65535 < u ≤ 2 ^ 32 - 1; flag 253 and an 8-byte payload when
2 ^ 32 - 1 < u ≤ 2 ^ 64 - 1; and flag 254 and a 16-byte payload otherwise.
In particular u32 250 encodes as [250], 251 as [251, 251, 0], 65535 as
[251, 255, 255] and 65536 as the five bytes [252, 0, 0, 1, 0]. -/
theorem claim2_amended : ∀ u : Nat,
    (u ≤ 250 →
      variantIntEncoding true [0] (Val.num u) 0 Ty.u128 = .ok ([u], 1)) ∧
    (250 < u → u ≤ 65535 →
      variantIntEncoding true [0, 0, 0] (Val.num u) 0 Ty.u128
        = .ok (251 :: leBytes 2 u, 3)) ∧
    (65535 < u → u ≤ 4294967295 →
      variantIntEncoding true [0, 0, 0, 0, 0] (Val.num u) 0 Ty.u128
        = .ok (252 :: leBytes 4 u, 5)) ∧
    (4294967295 < u → u ≤ 18446744073709551615 →
      variantIntEncoding true [0, 0, 0, 0, 0, 0, 0, 0, 0] (Val.num u) 0 Ty.u128
        = .ok (253 :: leBytes 8 u, 9)) ∧
    (18446744073709551615 < u → u < 2 ^ 128 →
      variantIntEncoding true [0, 0, 0, 0, 0, 0, 0, 0, 0, 0, 0, 0, 0, 0, 0, 0, 0]
          (Val.num u) 0 Ty.u128
        = .ok (254 :: leBytes 16 u, 17)) ∧
    encode Ty.u32 (Val.num 250) [9] 0 Config.standard = .ok ([250], 1) ∧
    encode Ty.u32 (Val.num 251) [9, 9, 9] 0 Config.standard = .ok ([251, 251, 0], 3) ∧
    encode Ty.u32 (Val.num 65535) [9, 9, 9] 0 Config.standard = .ok ([251, 255, 255], 3) ∧
    encode Ty.u32 (Val.num 65536) [9, 9, 9, 9, 9] 0 Config.standard
      = .ok ([252, 0, 0, 1, 0], 5) := by
  intro u
  have hz : zigzagOf (Val.num u) Ty.u128 = .ok (some (u : Int)) := by
    simp [zigzagOf, isSignedTy, jsToNumber]
  have ht : ((u : Int)).toNat = u := by simp
  have b1 : u ≤ 250 →
      variantIntEncoding true [0] (Val.num u) 0 Ty.u128 = .ok ([u], 1) := by
    intro h1
    unfold variantIntEncoding
    rw [hz]
    simp only [Except.bind, bind]
    rw [if_neg (by omega), if_pos (by omega), ht, dvSet_eq [0] 0 1 u (by simp)]
    simp only [Except.bind, bind, leBytes]
    simp [Nat.mod_eq_of_lt (by omega : u < 256)]
  have b2 : 250 < u → u ≤ 65535 →
      variantIntEncoding true [0, 0, 0] (Val.num u) 0 Ty.u128
        = .ok (251 :: leBytes 2 u, 3) := by
    intro h1 h2
    unfold variantIntEncoding
    rw [hz]
    simp only [Except.bind, bind]
    rw [if_neg (by omega), if_neg (by omega), if_pos (by omega)]
    rw [show dvSet [0, 0, 0] 0 1 251 true = .ok [251, 0, 0] from by decide]
    simp only [Except.bind, bind]
    rw [ht, dvSet_eq [251, 0, 0] 1 2 u (by simp)]
    simp
  have b3 : 65535 < u → u ≤ 4294967295 →
      variantIntEncoding true [0, 0, 0, 0, 0] (Val.num u) 0 Ty.u128
        = .ok (252 :: leBytes 4 u, 5) := by
    intro h1 h2
    unfold variantIntEncoding
    rw [hz]
    simp only [Except.bind, bind]
    rw [if_neg (by omega), if_neg (by omega), if_neg (by omega), if_pos (by omega)]
    rw [show dvSet [0, 0, 0, 0, 0] 0 1 252 true = .ok [252, 0, 0, 0, 0] from by decide]
    simp only [Except.bind, bind]
    rw [ht, dvSet_eq [252, 0, 0, 0, 0] 1 4 u (by simp)]
    simp
  have b4 : 4294967295 < u → u ≤ 18446744073709551615 →
      variantIntEncoding true [0, 0, 0, 0, 0, 0, 0, 0, 0] (Val.num u) 0 Ty.u128
        = .ok (253 :: leBytes 8 u, 9) := by
    intro h1 h2
    unfold variantIntEncoding
    rw [hz]
    simp only [Except.bind, bind]
    rw [if_neg (by omega), if_neg (by omega), if_neg (by omega), if_neg (by omega),
      if_pos (by omega)]
    rw [show dvSet [0, 0, 0, 0, 0, 0, 0, 0, 0] 0 1 253 true
        = .ok [253, 0, 0, 0, 0, 0, 0, 0, 0] from by decide]
    simp only [Except.bind, bind]
    rw [ht, dvSet_eq [253, 0, 0, 0, 0, 0, 0, 0, 0] 1 8 u (by simp)]
    simp
  have b5 : 18446744073709551615 < u → u < 2 ^ 128 →
      variantIntEncoding true [0, 0, 0, 0, 0, 0, 0, 0, 0, 0, 0, 0, 0, 0, 0, 0, 0]
          (Val.num u) 0 Ty.u128
        = .ok (254 :: leBytes 16 u, 17) := by
    intro h1 h2
    unfold variantIntEncoding
    rw [hz]
    simp only [Except.bind, bind]
    rw [if_neg (by omega), if_neg (by omega), if_neg (by omega), if_neg (by omega),
      if_neg (by omega)]
    rw [show dvSet [0, 0, 0, 0, 0, 0, 0, 0, 0, 0, 0, 0, 0, 0, 0, 0, 0] 0 1 254 true
        = .ok [254, 0, 0, 0, 0, 0, 0, 0, 0, 0, 0, 0, 0, 0, 0, 0, 0] from by decide]
    simp only [Except.bind, bind]
    unfold setU128
    rw [if_neg (by omega)]
    simp only [ht]
    rw [dvSet_eq [254, 0, 0, 0, 0, 0, 0, 0, 0, 0, 0, 0, 0, 0, 0, 0, 0] 1 8 (u % 2 ^ 64)
      (by simp)]
    simp only [Except.bind, bind]
    have hsplit : leBytes 16 u = leBytes 8 u ++ leBytes 8 (u / 2 ^ 64) := by
      have := leBytes_add 8 8 u
      simpa using this
    have hmod : leBytes 8 (u % 2 ^ 64) = leBytes 8 u := by
      have := leBytes_mod 8 u
      simpa using this
    rw [show ([254, 0, 0, 0, 0, 0, 0, 0, 0, 0, 0, 0, 0, 0, 0, 0, 0] : List Nat).take 1
        = [254] from by decide]
    rw [show ([254, 0, 0, 0, 0, 0, 0, 0, 0, 0, 0, 0, 0, 0, 0, 0, 0] : List Nat).drop 9
        = [0, 0, 0, 0, 0, 0, 0, 0] from by decide]
    rw [dvSet_eq ([254] ++ leBytes 8 (u % 2 ^ 64) ++ [0, 0, 0, 0, 0, 0, 0, 0]) 9 8
      (u / 2 ^ 64) (by simp [leBytes_length])]
    have htake : ([254] ++ leBytes 8 (u % 2 ^ 64) ++ ([0, 0, 0, 0, 0, 0, 0, 0] : List Nat)).take 9
        = [254] ++ leBytes 8 (u % 2 ^ 64) := by
      rw [List.take_append_eq_append_take]
      have hl : ([254] ++ leBytes 8 (u % 2 ^ 64)).length = 9 := by simp [leBytes_length]
      rw [List.take_of_length_le (by rw [hl]), hl]
      simp
    have hdrop : ([254] ++ leBytes 8 (u % 2 ^ 64) ++ ([0, 0, 0, 0, 0, 0, 0, 0] : List Nat)).drop 17
        = [] := by
      apply List.drop_eq_nil_of_le
      simp [leBytes_length]
    rw [htake, hdrop, hmod, hsplit]
    simp
  refine ⟨b1, b2, b3, b4, b5, ?_, ?_, ?_, ?_⟩
  · simp [encode, limitHit, isVariant, isLittle, isIntTy, isRawByteTy, Config.standard,
      variantIntEncoding, zigzagOf, isSignedTy, jsToNumber, dvSet, writeRun, leBytes,
      Except.map, Except.bind, bind]
  · simp [encode, limitHit, isVariant, isLittle, isIntTy, isRawByteTy, Config.standard,
      variantIntEncoding, zigzagOf, isSignedTy, jsToNumber, dvSet, writeRun, leBytes,
      Except.map, Except.bind, bind]
  · simp [encode, limitHit, isVariant, isLittle, isIntTy, isRawByteTy, Config.standard,
      variantIntEncoding, zigzagOf, isSignedTy, jsToNumber, dvSet, writeRun, leBytes,
      Except.map, Except.bind, bind]
  · simp [encode, limitHit, isVariant, isLittle, isIntTy, isRawByteTy, Config.standard,
      variantIntEncoding, zigzagOf, isSignedTy, jsToNumber, dvSet, writeRun, leBytes,
      Except.map, Except.bind, bind]

/-- C2 (amended), witness: one instance of each varint range, applied through
the amended theorem with the payload byte lists evaluated. -/
theorem claim2_amended_witness :
    variantIntEncoding true [0] (Val.num 100) 0 Ty.u128 = .ok ([100], 1) ∧
    variantIntEncoding true [0, 0, 0] (Val.num 300) 0 Ty.u128 = .ok ([251, 44, 1], 3) ∧
    variantIntEncoding true [0, 0, 0, 0, 0] (Val.num 70000) 0 Ty.u128
      = .ok ([252, 112, 17, 1, 0], 5) ∧
    variantIntEncoding true [0, 0, 0, 0, 0, 0, 0, 0, 0] (Val.num 8589934592) 0 Ty.u128
      = .ok ([253, 0, 0, 0, 0, 2, 0, 0, 0], 9) ∧
    variantIntEncoding true [0, 0, 0, 0, 0, 0, 0, 0, 0, 0, 0, 0, 0, 0, 0, 0, 0]
        (Val.num 18446744073709551616) 0 Ty.u128
      = .ok ([254, 0, 0, 0, 0, 0, 0, 0, 0, 1, 0, 0, 0, 0, 0, 0, 0], 17) := by
  refine ⟨?_, ?_, ?_, ?_, ?_⟩
  · have h := (claim2_amended 100).1 (by norm_num)
    simpa [leBytes] using h
  · have h := (claim2_amended 300).2.1 (by norm_num) (by norm_num)
    simpa [leBytes] using h
  · have h := (claim2_amended 70000).2.2.1 (by norm_num) (by norm_num)
    simpa [leBytes] using h
  · have h := (claim2_amended 8589934592).2.2.2.1 (by norm_num) (by norm_num)
    simpa [leBytes] using h
  · have h := (claim2_amended 18446744073709551616).2.2.2.2.1 (by norm_num) (by norm_num)
    simpa [leBytes] using h

set_option maxHeartbeats 1000000 in
/-- C3: on the i32 lane the zigzag step is computed with the JS 32-bit shift
operators, so it is not the claimed width-32 zigzag map for every in-range
value: encoding the in-range i32 value 2 ^ 30 doubles it into the negative
32-bit range and the encoder throws InvalidLength instead of emitting the
varint of zig(2 ^ 30) = 2 ^ 31. The special-cased values behave as claimed:
i32 -1 encodes as [1] and i32 MIN as [252, 255, 255, 255, 255]. -/
theorem claim3_i32_zigzag_overflow :
    encode Ty.i32 (Val.num 1073741824) [0, 0, 0, 0, 0] 0 Config.standard
      = .error .invalidLength ∧
    encode Ty.i32 (Val.num (-1)) [9, 9, 9, 9, 9] 0 Config.standard
      = .ok ([1, 9, 9, 9, 9], 1) ∧
    encode Ty.i32 (Val.num (-2147483648)) [9, 9, 9, 9, 9] 0 Config.standard
      = .ok ([252, 255, 255, 255, 255], 5) := by
  have hz1 : zigzagOf (Val.num 1073741824) Ty.i32 = .ok (some (-2147483648)) := by decide
  have hz2 : zigzagOf (Val.num (-1)) Ty.i32 = .ok (some 1) := by decide
  have hz3 : zigzagOf (Val.num (-2147483648)) Ty.i32 = .ok (some 4294967295) := by decide
  refine ⟨?_, ?_, ?_⟩
  · simp [encode, limitHit, isVariant, isLittle, isIntTy, isRawByteTy, Config.standard,
      variantIntEncoding, hz1, Except.map, Except.bind, bind]
  · simp [encode, limitHit, isVariant, isLittle, isIntTy, isRawByteTy, Config.standard,
      variantIntEncoding, hz2, dvSet, writeRun, leBytes, Except.map, Except.bind, bind]
  · simp [encode, limitHit, isVariant, isLittle, isIntTy, isRawByteTy, Config.standard,
      variantIntEncoding, hz3, dvSet, writeRun, leBytes, Except.map, Except.bind, bind]

set_option maxHeartbeats 1000000 in
/-- C4, counterexample: with limit 1 under the fixed little-endian
configuration, a u32 encode starting at offset 0 passes the entry check and
writes all four bytes, changing indices 1, 2 and 3, all at or past the limit,
and returns offset 4 with no OverflowLimit; the matching decode likewise
reads those bytes. -/
theorem claim4_counterexample :
    encode Ty.u32 (Val.num 67305985) [9, 9, 9, 9] 0
        ⟨Endian.little, IntMode.fixed, some 1⟩
      = .ok ([1, 2, 3, 4], 4) ∧
    decode Ty.u32 [1, 2, 3, 4] 0 ⟨Endian.little, IntMode.fixed, some 1⟩
      = .ok (Val.num 67305985, 4) := by
  constructor
  · simp [encode, limitHit, isVariant, isLittle, isIntTy, isRawByteTy,
      numWrap, jsToNumber, dvSet, writeRun, leBytes, Except.map, Except.bind, bind]
    decide
  · simp [decode, limitHit, isVariant, isLittle, isIntTy, isRawByteTy,
      dvGet, bytesToNatLE, Except.map, Except.bind, bind, pure, Except.pure]

/-- C4 (amended): the limit is enforced only at the entry of each encode or
decode call, against the starting offset: any call starting at or past the
limit fails with OverflowLimit before touching the buffer, but a call
starting below the limit may still access bytes at indices at or past it. -/
theorem claim4_amended (t : Ty) (v : Val) (buf : List Nat) (off k : Nat)
    (cfg : Config) (hl : cfg.limit = some k) (hk : k ≤ off) :
    encode t v buf off cfg = .error .overflowLimit ∧
    decode t buf off cfg = .error .overflowLimit := by
  have hhit : limitHit cfg off = true := by
    simp [limitHit, hl, hk]
  constructor
  · rw [encode]
    simp [hhit]
  · rw [decode]
    simp [hhit]

/-- C4 (amended), witness: a u8 encode and decode starting exactly at the
limit fail with OverflowLimit. -/
theorem claim4_amended_witness :
    encode Ty.u8 (Val.num 0) [7, 7, 7, 7] 3 ⟨Endian.little, IntMode.variant, some 3⟩
      = .error .overflowLimit ∧
    decode Ty.u8 [7, 7, 7, 7] 3 ⟨Endian.little, IntMode.variant, some 3⟩
      = .error .overflowLimit :=
  claim4_amended Ty.u8 (Val.num 0) [7, 7, 7, 7] 3 3
    ⟨Endian.little, IntMode.variant, some 3⟩ rfl (by omega)

/-- C5, counterexample: decoding a bool byte other than 0 and 1 does not
fail with InvalidType; the decoder just compares the byte against 1 and
returns false. -/
theorem claim5_counterexample :
    decode Ty.bool [2] 0 Config.standard = .ok (Val.bool false, 1) ∧
    decode Ty.bool [2] 0 Config.standard ≠ .error .invalidType := by
  have h : decode Ty.bool [2] 0 Config.standard = .ok (Val.bool false, 1) := by
    simp [decode, limitHit, isVariant, isLittle, isIntTy, isRawByteTy, Config.standard,
      dvGet, bytesToNatLE, Except.map]
  exact ⟨h, by rw [h]; simp⟩

/-- C5 (amended): encoding a bool writes one byte, 0 for false and 1 for
true; decoding a bool reads one byte and returns true exactly for byte value
1 and false for every other byte value, raising no error. -/
theorem claim5_amended :
    (∀ b : Bool, encode Ty.bool (Val.bool b) [7] 0 Config.standard
      = .ok ([if b then 1 else 0], 1)) ∧
    (∀ n : Nat, decode Ty.bool [n] 0 Config.standard = .ok (Val.bool (n == 1), 1)) := by
  constructor
  · intro b
    cases b <;>
      · simp [encode, limitHit, isVariant, isLittle, isIntTy, isRawByteTy, Config.standard,
          numWrap, jsToNumber, dvSet, writeRun, leBytes, Except.map, Except.bind, bind]
        decide
  · intro n
    have h := dvGet_one [n] 0 true (by simp)
    simp only [List.getD_cons_zero] at h
    simp [decode, limitHit, isVariant, isLittle, isIntTy, isRawByteTy, Config.standard,
      h, Except.map]

/-- C6: encode fails with Unimplemented on both f16 and f128, and decode
fails with Unimplemented on f16; but the decode switch has no f128 case, so
decoding an f128 descriptor falls through and succeeds with the undefined
value and an unchanged offset, for every buffer, offset and configuration
whose limit is not already hit. -/
theorem claim6_f128_decode_falls_through (v : Val) (buf : List Nat) (off : Nat)
    (cfg : Config) (h : limitHit cfg off = false) :
    decode Ty.f128 buf off cfg = .ok (Val.jsUndefined, off) ∧
    decode Ty.f16 buf off cfg = .error .unimplemented ∧
    encode Ty.f16 v buf off cfg = .error .unimplemented ∧
    encode Ty.f128 v buf off cfg = .error .unimplemented := by
  refine ⟨?_, ?_, ?_, ?_⟩
  · rw [decode]
    simp [h, isIntTy, isRawByteTy]
  · rw [decode]
    simp [h, isIntTy, isRawByteTy]
  · rw [encode]
    simp [h, isIntTy, isRawByteTy]
  · rw [encode]
    simp [h, isIntTy, isRawByteTy]

/-- C6, witness: the f128 fall-through and the three Unimplemented failures
at a concrete buffer, offset and configuration. -/
theorem claim6_f128_witness :
    decode Ty.f128 [1, 2, 3] 0 Config.standard = .ok (Val.jsUndefined, 0) ∧
    decode Ty.f16 [1, 2, 3] 0 Config.standard = .error .unimplemented ∧
    encode Ty.f16 (Val.num 0) [1, 2, 3] 0 Config.standard = .error .unimplemented ∧
    encode Ty.f128 (Val.num 0) [1, 2, 3] 0 Config.standard = .error .unimplemented :=
  claim6_f128_decode_falls_through (Val.num 0) [1, 2, 3] 0 Config.standard rfl

/-- C7: option behaviour. Encoding writes the single tag byte 0 for null and
undefined values (and nothing further); any other value writes tag byte 1 and
continues with the inner encode at the next offset. Decoding returns null on
tag 0, delegates to the inner decode on tag 1, and fails with
InvalidOptionVariant on every other tag byte. -/
theorem claim7_option (inner : Ty) (v : Val) (buf : List Nat) (off : Nat)
    (cfg : Config) (hlim : limitHit cfg off = false) (hoff : off < buf.length) :
    (encode (Ty.option inner) Val.null buf off cfg = .ok (buf.set off 0, off + 1)) ∧
    (encode (Ty.option inner) Val.jsUndefined buf off cfg = .ok (buf.set off 0, off + 1)) ∧
    (v ≠ Val.null → v ≠ Val.jsUndefined →
      encode (Ty.option inner) v buf off cfg
        = encode inner v (buf.set off 1) (off + 1) cfg) ∧
    (buf.getD off 0 = 0 →
      decode (Ty.option inner) buf off cfg = .ok (Val.null, off + 1)) ∧
    (buf.getD off 0 = 1 →
      decode (Ty.option inner) buf off cfg = decode inner buf (off + 1) cfg) ∧
    (buf.getD off 0 ≠ 0 → buf.getD off 0 ≠ 1 →
      decode (Ty.option inner) buf off cfg = .error .invalidOptionVariant) := by
  have hset0 : dvSet buf off 1 0 (isLittle cfg) = .ok (buf.set off 0) := by
    rw [dvSet_one buf off 0 (isLittle cfg) hoff]
  have hset1 : dvSet buf off 1 1 (isLittle cfg) = .ok (buf.set off 1) := by
    rw [dvSet_one buf off 1 (isLittle cfg) hoff]
  have hget := dvGet_one buf off (isLittle cfg) hoff
  refine ⟨?_, ?_, ?_, ?_, ?_, ?_⟩
  · rw [encode]
    simp [hlim, isIntTy, isRawByteTy, hset0, Except.map]
  · rw [encode]
    simp [hlim, isIntTy, isRawByteTy, hset0, Except.map]
  · intro h1 h2
    cases v
    case null => exact absurd rfl h1
    case jsUndefined => exact absurd rfl h2
    all_goals
      rw [encode]
      simp [hlim, isIntTy, isRawByteTy, hset1, Except.bind, bind]
  · intro h0
    rw [decode]
    simp only [List.getD_eq_getElem?_getD] at h0
    simp [hlim, isIntTy, isRawByteTy, hget, h0, Except.bind, bind]
  · intro h1
    rw [decode]
    simp only [List.getD_eq_getElem?_getD] at h1
    simp [hlim, isIntTy, isRawByteTy, hget, h1, Except.bind, bind]
  · intro h0 h1
    rw [decode]
    simp only [List.getD_eq_getElem?_getD] at h0 h1
    simp [hlim, isIntTy, isRawByteTy, hget, h0, h1, Except.bind, bind]

/-- C7, witness: the three decode shapes and the two encode shapes of option
at concrete bytes. -/
theorem claim7_option_witness :
    encode (Ty.option Ty.u8) Val.null [9, 9] 0 Config.standard = .ok ([0, 9], 1) ∧
    encode (Ty.option Ty.u8) (Val.num 5) [9, 9] 0 Config.standard
      = encode Ty.u8 (Val.num 5) [1, 9] 1 Config.standard ∧
    decode (Ty.option Ty.u8) [0, 5] 0 Config.standard = .ok (Val.null, 1) ∧
    decode (Ty.option Ty.u8) [1, 5] 0 Config.standard
      = decode Ty.u8 [1, 5] 1 Config.standard ∧
    decode (Ty.option Ty.u8) [2, 5] 0 Config.standard = .error .invalidOptionVariant := by
  have h1 := claim7_option Ty.u8 (Val.num 5) [9, 9] 0 Config.standard rfl (by norm_num)
  have h2 := claim7_option Ty.u8 (Val.num 5) [0, 5] 0 Config.standard rfl (by norm_num)
  have h3 := claim7_option Ty.u8 (Val.num 5) [1, 5] 0 Config.standard rfl (by norm_num)
  have h4 := claim7_option Ty.u8 (Val.num 5) [2, 5] 0 Config.standard rfl (by norm_num)
  refine ⟨by simpa using h1.1, by simpa using h1.2.2.1 (by simp) (by simp), ?_, ?_, ?_⟩
  · exact h2.2.2.2.1 (by norm_num)
  · exact h3.2.2.2.2.1 (by norm_num)
  · exact h4.2.2.2.2.2 (by norm_num) (by norm_num)

theorem decodeEnumVs_not_found (vs : List (String × Nat × Option Ty)) (d : Nat)
    (buf : List Nat) (off : Nat) (cfg : Config) (h : ∀ e ∈ vs, e.2.1 ≠ d) :
    decodeEnumVs vs d buf off cfg = .ok none := by
  induction vs with
  | nil => simp [decodeEnumVs]
  | cons e rest ih =>
    obtain ⟨enm, edd, ekind⟩ := e
    have hih := ih (fun x hx => h x (List.mem_cons_of_mem _ hx))
    have hne : edd ≠ d := by
      have := h (enm, edd, ekind) (by simp)
      simpa using this
    rw [decodeEnumVs.eq_def]
    simp [hih, hne, Except.bind, bind]

theorem decodeEnumVs_found (vs : List (String × Nat × Option Ty)) (d : Nat)
    (buf : List Nat) (off : Nat) (cfg : Config) (nm : String) (kind : Option Ty)
    (hnd : (vs.map (fun e => e.2.1)).Nodup) (hmem : (nm, d, kind) ∈ vs) :
    decodeEnumVs vs d buf off cfg
      = match kind with
        | none => .ok (some (Val.enumVal nm Val.jsUndefined, off))
        | some pt =>
          (decode pt buf off cfg).map (fun r => some (Val.enumVal nm r.1, r.2)) := by
  induction vs with
  | nil => simp at hmem
  | cons e rest ih =>
    obtain ⟨enm, edd, ekind⟩ := e
    rw [List.map_cons] at hnd
    simp only at hnd
    have hhead := (List.nodup_cons.mp hnd).1
    have htail := (List.nodup_cons.mp hnd).2
    rw [decodeEnumVs.eq_def]
    rcases List.mem_cons.mp hmem with heq | hrest
    · injection heq with ha hb
      injection hb with hb1 hb2
      subst ha
      subst hb1
      subst hb2
      have hnotin : ∀ x ∈ rest, x.2.1 ≠ d := by
        intro x hx hxd
        apply hhead
        rw [← hxd]
        exact List.mem_map_of_mem _ hx
      have hrw := decodeEnumVs_not_found rest d buf off cfg hnotin
      cases kind <;> simp [hrw, Except.bind, bind]
    · have hne : edd ≠ d := by
        intro hxd
        apply hhead
        rw [hxd]
        have := List.mem_map_of_mem (fun e => e.2.1) hrest
        simpa using this
      have hihr := ih htail hrest
      cases kind with
      | none => simp [hihr, Except.bind, bind]
      | some pt =>
        cases hdec : decode pt buf off cfg with
        | error err => simp [hihr, Except.bind, bind, Except.map, hdec]
        | ok r => simp [hihr, Except.bind, bind, Except.map, hdec]

/-- C8: enum decoding under the standard configuration with a single-byte
wire discriminant d. If no declared variant carries discriminant d, decoding
fails with InvalidVariant; if some variant carries it (discriminants being
pairwise distinct, though possibly non-contiguous), that variant is selected:
a unit variant yields its name with no payload, and a payload variant yields
its name with the payload decoded from the following bytes. -/
theorem claim8_enum (vs : List (String × Nat × Option Ty)) (d : Nat)
    (tail : List Nat) (hd : d ≤ 250) :
    ((∀ e ∈ vs, e.2.1 ≠ d) →
      decode (Ty.enum vs) (d :: tail) 0 Config.standard = .error .invalidVariant) ∧
    ((vs.map (fun e => e.2.1)).Nodup →
      (∀ nm, (nm, d, (none : Option Ty)) ∈ vs →
        decode (Ty.enum vs) (d :: tail) 0 Config.standard
          = .ok (Val.enumVal nm Val.jsUndefined, 1)) ∧
      (∀ nm pt, (nm, d, some pt) ∈ vs →
        decode (Ty.enum vs) (d :: tail) 0 Config.standard
          = (decode pt (d :: tail) 1 Config.standard).map
              (fun r => (Val.enumVal nm r.1, r.2)))) := by
  have hdisc : readDiscriminant true true (d :: tail) 0 = .ok ((d : Int), 1) := by
    unfold readDiscriminant decodeVariantInt
    rw [dvGet_one (d :: tail) 0 true (by simp)]
    simp only [List.getD_cons_zero, Except.bind, bind]
    simp [if_pos hd, isSignedTy, Except.bind, bind]
  refine ⟨fun hnone => ?_, fun hnd => ⟨fun nm hmem => ?_, fun nm pt hmem => ?_⟩⟩
  · rw [decode]
    simp [show limitHit Config.standard 0 = false from rfl,
      show isVariant Config.standard = true from rfl,
      show isLittle Config.standard = true from rfl,
      isIntTy, hdisc, Except.bind, bind, Int.toNat_natCast]
    rw [decodeEnumVs_not_found vs d (d :: tail) 1 Config.standard hnone]
  · rw [decode]
    simp [show limitHit Config.standard 0 = false from rfl,
      show isVariant Config.standard = true from rfl,
      show isLittle Config.standard = true from rfl,
      isIntTy, hdisc, Except.bind, bind, Int.toNat_natCast]
    rw [decodeEnumVs_found vs d (d :: tail) 1 Config.standard nm none hnd hmem]
  · rw [decode]
    simp [show limitHit Config.standard 0 = false from rfl,
      show isVariant Config.standard = true from rfl,
      show isLittle Config.standard = true from rfl,
      isIntTy, hdisc, Except.bind, bind, Int.toNat_natCast]
    rw [decodeEnumVs_found vs d (d :: tail) 1 Config.standard nm (some pt) hnd hmem]
    cases hdec : decode pt (d :: tail) 1 Config.standard with
    | error err => simp [Except.bind, bind, Except.map, hdec]
    | ok r => simp [Except.bind, bind, Except.map, hdec]

/-- C8, witness: the enum with non-contiguous discriminants A = 0, B = 5.
Wire discriminant 3 fails with InvalidVariant, wire discriminant 5 decodes
the unit variant B, and a payload variant decodes its payload. -/
theorem claim8_enum_witness :
    decode (Ty.enum [("A", 0, none), ("B", 5, none)]) [3] 0 Config.standard
      = .error .invalidVariant ∧
    decode (Ty.enum [("A", 0, none), ("B", 5, none)]) [5] 0 Config.standard
      = .ok (Val.enumVal "B" Val.jsUndefined, 1) ∧
    decode (Ty.enum [("A", 0, some Ty.u8), ("B", 5, none)]) [0, 42] 0 Config.standard
      = (decode Ty.u8 [0, 42] 1 Config.standard).map
          (fun r => (Val.enumVal "A" r.1, r.2)) := by
  refine ⟨?_, ?_, ?_⟩
  · exact (claim8_enum [("A", 0, none), ("B", 5, none)] 3 [] (by norm_num)).1
      (by decide)
  · exact (((claim8_enum [("A", 0, none), ("B", 5, none)] 5 [] (by norm_num)).2
      (by simp)).1) "B" (by simp)
  · exact (((claim8_enum [("A", 0, some Ty.u8), ("B", 5, none)] 0 [42] (by norm_num)).2
      (by simp)).2) "A" Ty.u8 (by simp)

/-- C9: under variant int encoding, decoding an integer descriptor accepts
every varint flag class regardless of the declared width and returns the raw
payload without any range check: a u16 descriptor accepts single-byte,
2-byte, 4-byte and 16-byte payloads, and a u32 descriptor an 8-byte payload,
returning values strictly above the nominal maxima of those types with no
error. -/
theorem claim9_no_range_check :
    decode Ty.u16 [250] 0 Config.standard = .ok (Val.num 250, 1) ∧
    decode Ty.u16 [251, 255, 255] 0 Config.standard = .ok (Val.num 65535, 3) ∧
    decode Ty.u16 [252, 255, 255, 255, 255] 0 Config.standard
      = .ok (Val.num 4294967295, 5) ∧
    65535 < 4294967295 ∧
    decode Ty.u32 [253, 1, 0, 0, 0, 0, 0, 0, 1] 0 Config.standard
      = .ok (Val.num 72057594037927937, 9) ∧
    4294967295 < 72057594037927937 ∧
    decode Ty.u16 [254, 0, 0, 0, 0, 0, 0, 0, 0, 0, 0, 0, 0, 0, 0, 0, 1] 0 Config.standard
      = .ok (Val.num (2 ^ 120), 17) := by
  refine ⟨?_, ?_, ?_, by norm_num, ?_, by norm_num, ?_⟩ <;>
    simp [decode, limitHit, isVariant, isLittle, isIntTy, isRawByteTy, Config.standard,
      decodeVariantInt, dvGet, bytesToNatLE, getU128, isSignedTy, Except.map, Except.bind,
      bind, pure, Except.pure]

/-- C10: decoding the never descriptor always fails with InvalidType, while
encoding it never fails: the encode switch has no never case, so for every
value, buffer, offset and configuration whose limit is not already hit,
encode writes nothing and returns the buffer and offset unchanged. -/
theorem claim10_never (v : Val) (buf : List Nat) (off : Nat) (cfg : Config)
    (h : limitHit cfg off = false) :
    encode Ty.never v buf off cfg = .ok (buf, off) ∧
    decode Ty.never buf off cfg = .error .invalidType := by
  constructor
  · rw [encode]
    simp [h, isIntTy, isRawByteTy]
  · rw [decode]
    simp [h, isIntTy, isRawByteTy]

/-- C10, witness: never at a concrete value, buffer, offset and the standard
configuration. -/
theorem claim10_never_witness :
    encode Ty.never (Val.num 3) [1, 2, 3] 2 Config.standard = .ok ([1, 2, 3], 2) ∧
    decode Ty.never [1, 2, 3] 2 Config.standard = .error .invalidType :=
  claim10_never (Val.num 3) [1, 2, 3] 2 Config.standard rfl

end BincodeTS
